import Mathlib

/-
Verification of the coro pipeline core (gstreamermm-dsp).

Shallow embedding of:
  - coro::core::Buffer (src/unnamed/part_001): growable byte store with the
    acquire/commit reservation protocol and split.
  - coro::core::Node (src/include/coro/core/Node.h): canIntersect and link.
  - coro::audio::AlsaSink::onStop (src/src/audio/AlsaSink.cpp).

Bytes are modelled as Nat (they are only moved, never computed with), the
std::vector<uint8_t> backing store as List Nat.
-/

namespace Coro

/-- Resize of a std::vector: keeps the first min(old, new) elements and
value-initializes (zero-fills) any newly created tail, so the result always
has exactly the requested length. -/
def vecResize (l : List Nat) (n : Nat) : List Nat :=
  l.take n ++ List.replicate (n - l.length) 0

/-- Memory write of a byte sequence bs starting at index pos: models the
caller writing into the pointer returned by acquire. -/
def writeBytes (l : List Nat) (pos : Nat) (bs : List Nat) : List Nat :=
  l.take pos ++ bs ++ l.drop (pos + bs.length)

/-- State of coro::core::Buffer. Field names follow the C++ members.
Modelled from the spec: the class declaration (Buffer.h) is not among the
provided sources; per the description of the buffer as an owned growable
byte arena with an explicit start-offset, the members m_offset and
m_acquiredOffset carry default initializers of 0, which also matches both
constructor bodies copying incoming data to the origin of the store. -/
structure Buffer where
  m_buffer : List Nat
  m_size : Nat
  m_offset : Nat := 0
  m_acquiredOffset : Nat := 0
deriving DecidableEq, Repr

namespace Buffer

/-- Constructor Buffer(size_t size): resizes a fresh vector to the given
length (all zeros) and sets the committed size to 0. -/
def ofSize (size : Nat) : Buffer :=
  { m_buffer := List.replicate size 0, m_size := 0 }

/-- Constructor Buffer(const uint8_t* data, size_t size, size_t reservedSize):
resizes to max(size, reservedSize) and copies the given bytes to the front. -/
def ofData (data : List Nat) (reservedSize : Nat) : Buffer :=
  { m_buffer := data ++ List.replicate (max data.length reservedSize - data.length) 0,
    m_size := data.length }

/-- Buffer::size(): the committed size. -/
def size (b : Buffer) : Nat := b.m_size

/-- Buffer::data(): the committed read view, the m_size bytes starting at
m_offset (the C++ returns the pointer m_buffer.data() + m_offset; the
readable committed region behind it is size() bytes long). -/
def data (b : Buffer) : List Nat :=
  (b.m_buffer.drop b.m_offset).take b.m_size

/-- Buffer::acquire(size): returns the index the handed-out pointer points at
together with the successor state. Front branch: if m_offset >= size the
start of the store is returned and, exactly as in the C++, m_acquiredOffset
is NOT updated. Back branch: if the free space behind the committed region
suffices, the pointer one past the committed region is returned and
m_acquiredOffset is set to it. Grow branch: the store is resized to
m_buffer.size() - sizeAtBack + size and the pointer one past the committed
region is returned. -/
def acquire (b : Buffer) (size : Nat) : Nat × Buffer :=
  if b.m_offset ≥ size then
    (0, b)
  else if b.m_buffer.length - b.m_offset - b.m_size ≥ size then
    (b.m_offset + b.m_size, { b with m_acquiredOffset := b.m_offset + b.m_size })
  else
    (b.m_offset + b.m_size,
     { b with
       m_buffer := vecResize b.m_buffer
         (b.m_buffer.length - (b.m_buffer.length - b.m_offset - b.m_size) + size),
       m_acquiredOffset := b.m_offset + b.m_size })

/-- Buffer::commit(size): publishes by moving m_offset to m_acquiredOffset
and setting m_size; the C++ performs no bounds check here. -/
def commit (b : Buffer) (size : Nat) : Buffer :=
  { b with m_offset := b.m_acquiredOffset, m_size := size }

/-- One full producer step against the buffer protocol: acquire n bytes,
write them through the returned pointer, commit n. -/
def acquireWriteCommit (b : Buffer) (bs : List Nat) : Buffer :=
  let (p, b1) := b.acquire bs.length
  let b2 := { b1 with m_buffer := writeBytes b1.m_buffer p bs }
  b2.commit bs.length

/-- Loop body of Buffer::split: for (i = 0; i < m_size; i += size) emit the
chunk of `size` bytes starting at m_offset + i. The produced chunk is the
byte content the element constructor T(m_buffer.data() + m_offset + i, size)
copies. For chunk size 0 the C++ loop does not terminate (when m_size > 0);
the model returns [] in that out-of-contract case. -/
def splitGo (buf : List Nat) (off sz c i : Nat) : List (List Nat) :=
  if _h : 0 < c ∧ i < sz then
    ((buf.drop (off + i)).take c) :: splitGo buf off sz c (i + c)
  else
    []
termination_by sz - i
decreasing_by
  omega

/-- Buffer::split(size): the list of chunks produced by the loop. -/
def split (b : Buffer) (c : Nat) : List (List Nat) :=
  splitGo b.m_buffer b.m_offset b.m_size c 0

/-- Buffers reachable by an arbitrary sequence of constructor, acquire and
commit calls, with unconstrained arguments (the quantification used by the
containment claim). -/
inductive ReachableAny : Buffer → Prop where
  | ofSize (n : Nat) : ReachableAny (Buffer.ofSize n)
  | ofData (d : List Nat) (r : Nat) : ReachableAny (Buffer.ofData d r)
  | acquire (b : Buffer) (n : Nat) : ReachableAny b → ReachableAny (b.acquire n).2
  | commit (b : Buffer) (n : Nat) : ReachableAny b → ReachableAny (b.commit n)

/-- Buffers reachable by constructor, acquire and commit calls in which every
commit n happens in a state whose acquired offset plus n still fits the
backing store (the weakest per-call guard on the unchecked commit). -/
inductive ReachableSafe : Buffer → Prop where
  | ofSize (n : Nat) : ReachableSafe (Buffer.ofSize n)
  | ofData (d : List Nat) (r : Nat) : ReachableSafe (Buffer.ofData d r)
  | acquire (b : Buffer) (n : Nat) : ReachableSafe b → ReachableSafe (b.acquire n).2
  | commit (b : Buffer) (n : Nat) : ReachableSafe b →
      b.m_acquiredOffset + n ≤ b.m_buffer.length → ReachableSafe (b.commit n)

end Buffer

/-- Node::canIntersect(in, out) from Node.h: nested range-for loops over the
two capability sets, returning true at the first pair i, o for which
Caps::intersect(i, o).isValid(). The capability type and the validity test
intersect(i, o).isValid() are parameters of the model (Caps.h is not among
the provided sources); List.any has exactly the early-exit loop semantics. -/
def canIntersect (valid : α → α → Bool) (ins outs : List α) : Bool :=
  ins.any fun i => outs.any fun o => valid i o

/-- Pairs of the two capability sets in the declaration order the nested
loops of canIntersect examine them in: outer loop over ins, inner over outs. -/
def capPairs (ins outs : List α) : List (α × α) :=
  ins.flatMap fun i => outs.map fun o => (i, o)

/-- First intersecting pair in declaration order: the pair at which the
nested loops of canIntersect return true. -/
def firstIntersect (valid : α → α → Bool) (ins outs : List α) : Option (α × α) :=
  (capPairs ins outs).find? fun p => valid p.1 p.2

/-- State of a coro::core::Node relevant to linking: the capability sets the
subclass declares statically, and the successor pointer m_next (modelled as
an optional node identifier). -/
structure Node (α : Type) where
  outCaps : List α
  inCaps : List α
  m_next : Option Nat := none
deriving DecidableEq, Repr

namespace Node

/-- Node::link(prev, next): the enable_if gate requires
canIntersect(Node1::outCaps(), Node2::inCaps()); when it holds the body sets
prev.m_next = &next and nothing else. The compile-time gate is embedded as
an Option: none when the gate rejects the pair. nextId stands for the
address of next. -/
def link (valid : α → α → Bool) (prev : Node α) (nextId : Nat) (next : Node α) :
    Option (Node α) :=
  if canIntersect valid prev.outCaps next.inCaps then
    some { prev with m_next := some nextId }
  else
    none

end Node

/-- One device-level ALSA call issued by AlsaSink::onStop. -/
inductive AlsaCall where
  | drain
  | close
deriving DecidableEq, Repr

/-- State of coro::audio::AlsaSink as used by onStop: the device handle
m_pcm (an optional opaque handle), the device name m_device and the cached
configuration m_conf (opaque type parameters, untouched by onStop). -/
structure AlsaSink (Pcm Conf : Type) where
  m_pcm : Option Pcm
  m_device : String
  m_conf : Conf

/-- AlsaSink::onStop: if m_pcm is set, drain and close the device and null
the handle; otherwise do nothing. Returns the successor state together with
the device calls issued. -/
def AlsaSink.onStop (s : AlsaSink Pcm Conf) : AlsaSink Pcm Conf × List AlsaCall :=
  match s.m_pcm with
  | some _ => ({ s with m_pcm := none }, [AlsaCall.drain, AlsaCall.close])
  | none => (s, [])

/-! Helper lemmas. -/

theorem vecResize_length (l : List Nat) (n : Nat) : (vecResize l n).length = n := by
  simp [vecResize]
  omega

theorem vecResize_drop_take (l : List Nat) (o s n : Nat)
    (hos : o + s ≤ l.length) (hn : l.length ≤ n) :
    ((vecResize l n).drop o).take s = (l.drop o).take s := by
  unfold vecResize
  rw [List.take_of_length_le hn, List.drop_append_of_le_length (by omega),
    List.take_append_of_le_length (by simp; omega)]

namespace Buffer

theorem acquire_fields (b : Buffer) (n : Nat) :
    ((b.acquire n).2).m_offset = b.m_offset ∧
    ((b.acquire n).2).m_size = b.m_size ∧
    b.m_buffer.length ≤ ((b.acquire n).2).m_buffer.length := by
  unfold acquire
  split_ifs with h1 h2
  · exact ⟨rfl, rfl, Nat.le_refl _⟩
  · exact ⟨rfl, rfl, Nat.le_refl _⟩
  · refine ⟨rfl, rfl, ?_⟩
    simp only [vecResize_length]
    omega

theorem acquire_data_eq (b : Buffer) (n : Nat)
    (hwf : b.m_offset + b.m_size ≤ b.m_buffer.length) :
    ((b.acquire n).2).data = b.data := by
  unfold acquire data
  split_ifs with h1 h2
  · rfl
  · rfl
  · exact vecResize_drop_take _ _ _ _ hwf (by omega)

end Buffer

theorem ceil_mul_ge (c s : Nat) (hc : 0 < c) : s ≤ ((s + c - 1) / c) * c := by
  have h := Nat.div_add_mod (s + c - 1) c
  have h2 : (s + c - 1) % c < c := Nat.mod_lt _ hc
  rw [Nat.mul_comm]
  omega

theorem ceil_mul_gt_of_not_dvd (c s : Nat) (hc : 0 < c) (hnd : ¬ c ∣ s) :
    s < ((s + c - 1) / c) * c := by
  rcases Nat.lt_or_ge s (((s + c - 1) / c) * c) with h | h
  · exact h
  · exact absurd ((Nat.le_antisymm (ceil_mul_ge c s hc) h) ▸ dvd_mul_left c _) hnd

theorem ceil_step (d c : Nat) (hc : 0 < c) (hd : 0 < d) :
    (d + c - 1) / c = (d - c + c - 1) / c + 1 := by
  rcases le_or_lt d c with h | h
  · have h1 : d - c = 0 := by omega
    have h2 : d + c - 1 = (d - 1) + c := by omega
    rw [h1, h2, Nat.add_div_right _ hc, Nat.div_eq_of_lt (by omega),
      Nat.div_eq_of_lt (by omega)]
  · have h2 : d + c - 1 = (d - c + c - 1) + c := by omega
    rw [h2, Nat.add_div_right _ hc]

namespace Buffer

theorem splitGo_length (buf : List Nat) (off c : Nat) (hc : 0 < c) :
    ∀ m sz i, sz - i ≤ m →
      (splitGo buf off sz c i).length = (sz - i + c - 1) / c := by
  intro m
  induction m with
  | zero =>
    intro sz i h
    rw [splitGo, dif_neg (by omega)]
    have h0 : sz - i = 0 := by omega
    rw [h0]
    simp [Nat.div_eq_of_lt (by omega : c - 1 < c)]
  | succ m ih =>
    intro sz i h
    rw [splitGo]
    by_cases hlt : i < sz
    · rw [dif_pos ⟨hc, hlt⟩]
      simp only [List.length_cons]
      rw [ih sz (i + c) (by omega)]
      have h1 : sz - (i + c) = sz - i - c := by omega
      rw [h1, ceil_step (sz - i) c hc (by omega)]
    · rw [dif_neg (by omega)]
      have h0 : sz - i = 0 := by omega
      rw [h0]
      simp [Nat.div_eq_of_lt (by omega : c - 1 < c)]

theorem splitGo_flatten (buf : List Nat) (off c : Nat) (hc : 0 < c) :
    ∀ m sz i, sz - i ≤ m →
      (splitGo buf off sz c i).flatten =
        (buf.drop (off + i)).take (((sz - i + c - 1) / c) * c) := by
  intro m
  induction m with
  | zero =>
    intro sz i h
    rw [splitGo, dif_neg (by omega)]
    have h0 : sz - i = 0 := by omega
    rw [h0]
    simp [Nat.div_eq_of_lt (by omega : c - 1 < c)]
  | succ m ih =>
    intro sz i h
    rw [splitGo]
    by_cases hlt : i < sz
    · rw [dif_pos ⟨hc, hlt⟩]
      rw [List.flatten_cons, ih sz (i + c) (by omega)]
      have h1 : sz - (i + c) = sz - i - c := by omega
      rw [h1, ceil_step (sz - i) c hc (by omega)]
      have h2 : ((sz - i - c + c - 1) / c + 1) * c
          = c + ((sz - i - c + c - 1) / c) * c := by ring
      rw [h2, List.take_add, List.drop_drop]
      have h3 : off + i + c = off + (i + c) := by omega
      rw [h3]
    · rw [dif_neg (by omega)]
      have h0 : sz - i = 0 := by omega
      rw [h0]
      simp [Nat.div_eq_of_lt (by omega : c - 1 < c)]

theorem splitGo_mem (buf : List Nat) (off c : Nat) (hc : 0 < c) :
    ∀ m sz i ch, sz - i ≤ m → ch ∈ splitGo buf off sz c i →
      ∃ k, i + k * c < sz ∧ ch = (buf.drop (off + (i + k * c))).take c := by
  intro m
  induction m with
  | zero =>
    intro sz i ch h hmem
    rw [splitGo, dif_neg (by omega)] at hmem
    exact absurd hmem (List.not_mem_nil ch)
  | succ m ih =>
    intro sz i ch h hmem
    rw [splitGo] at hmem
    by_cases hlt : i < sz
    · rw [dif_pos ⟨hc, hlt⟩] at hmem
      rcases List.mem_cons.mp hmem with hhd | htl
      · exact ⟨0, by omega, by simpa using hhd⟩
      · rcases ih sz (i + c) ch (by omega) htl with ⟨k, hk1, hk2⟩
        have h1 : i + (k + 1) * c = i + c + k * c := by ring
        refine ⟨k + 1, by omega, ?_⟩
        rw [h1]
        exact hk2
    · rw [dif_neg (by omega)] at hmem
      exact absurd hmem (List.not_mem_nil ch)

end Buffer

theorem canIntersect_iff (valid : α → α → Bool) (A B : List α) :
    canIntersect valid A B = true ↔ ∃ a ∈ A, ∃ b ∈ B, valid a b = true := by
  simp [canIntersect, List.any_eq_true]

/-! Claim theorems. -/

/-- C2: acquire preference order. For a buffer whose committed region (offset
o, length s) lies inside the backing store of capacity c, acquire(n) returns
the pointer to the start of the store (a window entirely before the
committed region) when o >= n, leaving the capacity unchanged; otherwise the
pointer one past the committed region when c - o - s >= n, leaving the
capacity unchanged; otherwise it grows the store to exactly o + s + n and
returns the pointer one past the committed region. -/
theorem acquire_preference_order (b : Buffer) (n : Nat)
    (hwf : b.m_offset + b.m_size ≤ b.m_buffer.length) :
    (n ≤ b.m_offset →
      (b.acquire n).1 = 0 ∧ (b.acquire n).1 + n ≤ b.m_offset ∧
      (b.acquire n).2.m_buffer.length = b.m_buffer.length) ∧
    (b.m_offset < n → n ≤ b.m_buffer.length - b.m_offset - b.m_size →
      (b.acquire n).1 = b.m_offset + b.m_size ∧
      (b.acquire n).2.m_buffer.length = b.m_buffer.length) ∧
    (b.m_offset < n → b.m_buffer.length - b.m_offset - b.m_size < n →
      (b.acquire n).1 = b.m_offset + b.m_size ∧
      (b.acquire n).2.m_buffer.length = b.m_offset + b.m_size + n) := by
  unfold Buffer.acquire
  refine ⟨fun h1 => ?_, fun h1 h2 => ?_, fun h1 h2 => ?_⟩
  · rw [if_pos (by omega)]
    exact ⟨rfl, by omega, rfl⟩
  · rw [if_neg (by omega), if_pos (by omega)]
    exact ⟨rfl, rfl⟩
  · rw [if_neg (by omega), if_neg (by omega)]
    refine ⟨rfl, ?_⟩
    simp only [vecResize_length]
    omega

/-- C2 witness: the three branches evaluated on a fresh 10-byte buffer with
a 4-byte request. -/
theorem acquire_preference_order_witness :
    ((Buffer.ofSize 10).m_offset + (Buffer.ofSize 10).m_size
      ≤ (Buffer.ofSize 10).m_buffer.length) ∧
    ((4 ≤ (Buffer.ofSize 10).m_offset →
      ((Buffer.ofSize 10).acquire 4).1 = 0 ∧
      ((Buffer.ofSize 10).acquire 4).1 + 4 ≤ (Buffer.ofSize 10).m_offset ∧
      ((Buffer.ofSize 10).acquire 4).2.m_buffer.length
        = (Buffer.ofSize 10).m_buffer.length) ∧
    ((Buffer.ofSize 10).m_offset < 4 →
      4 ≤ (Buffer.ofSize 10).m_buffer.length - (Buffer.ofSize 10).m_offset
          - (Buffer.ofSize 10).m_size →
      ((Buffer.ofSize 10).acquire 4).1
        = (Buffer.ofSize 10).m_offset + (Buffer.ofSize 10).m_size ∧
      ((Buffer.ofSize 10).acquire 4).2.m_buffer.length
        = (Buffer.ofSize 10).m_buffer.length) ∧
    ((Buffer.ofSize 10).m_offset < 4 →
      (Buffer.ofSize 10).m_buffer.length - (Buffer.ofSize 10).m_offset
          - (Buffer.ofSize 10).m_size < 4 →
      ((Buffer.ofSize 10).acquire 4).1
        = (Buffer.ofSize 10).m_offset + (Buffer.ofSize 10).m_size ∧
      ((Buffer.ofSize 10).acquire 4).2.m_buffer.length
        = (Buffer.ofSize 10).m_offset + (Buffer.ofSize 10).m_size + 4)) :=
  ⟨by decide, acquire_preference_order (Buffer.ofSize 10) 4 (by decide)⟩

/-- C3: frame property of acquire. For a buffer whose committed region lies
inside the backing store, acquire leaves the externally visible committed
view unchanged: size(), the committed bytes behind data(), and the offset
are the same before and after the call. -/
theorem acquire_frame (b : Buffer) (n : Nat)
    (hwf : b.m_offset + b.m_size ≤ b.m_buffer.length) :
    (b.acquire n).2.size = b.size ∧
    (b.acquire n).2.data = b.data ∧
    (b.acquire n).2.m_offset = b.m_offset := by
  refine ⟨?_, Buffer.acquire_data_eq b n hwf, (Buffer.acquire_fields b n).1⟩
  show (b.acquire n).2.m_size = b.m_size
  exact (Buffer.acquire_fields b n).2.1

/-- C3 witness: the frame property evaluated on a fresh 5-byte buffer with a
3-byte request. -/
theorem acquire_frame_witness :
    ((Buffer.ofSize 5).m_offset + (Buffer.ofSize 5).m_size
      ≤ (Buffer.ofSize 5).m_buffer.length) ∧
    (((Buffer.ofSize 5).acquire 3).2.size = (Buffer.ofSize 5).size ∧
     ((Buffer.ofSize 5).acquire 3).2.data = (Buffer.ofSize 5).data ∧
     ((Buffer.ofSize 5).acquire 3).2.m_offset = (Buffer.ofSize 5).m_offset) :=
  ⟨by decide, acquire_frame (Buffer.ofSize 5) 3 (by decide)⟩

/-- C9: AlsaSink::onStop is idempotent. For every sink state, a second
onStop call leaves the state produced by the first call unchanged and
issues no device calls (the handle is already null), so redundant stop
calls are tolerated. -/
theorem onStop_idempotent (s : AlsaSink Pcm Conf) :
    (AlsaSink.onStop (AlsaSink.onStop s).1).1 = (AlsaSink.onStop s).1 ∧
    (AlsaSink.onStop (AlsaSink.onStop s).1).2 = ([] : List AlsaCall) := by
  rcases s with ⟨pcm, dev, conf⟩
  cases pcm <;> simp [AlsaSink.onStop]

/-- C1: evaluation at the failing input. Three protocol-respecting
acquire/write/commit rounds on a fresh 10-byte buffer: 4 bytes at the back,
6 bytes at the back, then 3 bytes through the front-space branch (offset 4
is at least 3). The front branch of acquire does not update
m_acquiredOffset, so the final commit(3) publishes at the stale offset 4;
size() is 3 as the claim states, but data() returns [5, 6, 7] — previously
committed bytes — instead of the [11, 12, 13] that were written through the
acquired pointer. -/
theorem roundtrip_front_branch_failure :
    ((((Buffer.ofSize 10).acquireWriteCommit [1, 2, 3, 4]).acquireWriteCommit
        [5, 6, 7, 8, 9, 10]).acquireWriteCommit [11, 12, 13]).size = 3 ∧
    ((((Buffer.ofSize 10).acquireWriteCommit [1, 2, 3, 4]).acquireWriteCommit
        [5, 6, 7, 8, 9, 10]).acquireWriteCommit [11, 12, 13]).data = [5, 6, 7] ∧
    ([5, 6, 7] : List Nat) ≠ [11, 12, 13] := by
  decide

/-- C4 counterexample: the containment claim quantifies over every sequence
of constructor, acquire and commit calls, but commit is unchecked, so a
bare commit(1) on a zero-capacity buffer already leaves the committed
region outside the allocated storage. -/
theorem containment_counterexample :
    Buffer.ReachableAny ((Buffer.ofSize 0).commit 1) ∧
    ¬ (((Buffer.ofSize 0).commit 1).m_offset + ((Buffer.ofSize 0).commit 1).m_size
        ≤ ((Buffer.ofSize 0).commit 1).m_buffer.length) :=
  ⟨Buffer.ReachableAny.commit _ 1 (Buffer.ReachableAny.ofSize 0), by decide⟩

/-- C4 (amended): containment invariant. For every buffer reachable by
constructor, acquire and commit calls in which each commit(n) happens in a
state whose acquired offset plus n still fits the backing store, the
committed region is contained in the allocated storage:
offset + size() is at most the capacity. -/
theorem containment_invariant (b : Buffer) (h : Buffer.ReachableSafe b) :
    b.m_offset + b.m_size ≤ b.m_buffer.length := by
  induction h with
  | ofSize n => simp [Buffer.ofSize]
  | ofData d r =>
    simp [Buffer.ofData]
  | acquire b n hb ih =>
    have hf := Buffer.acquire_fields b n
    omega
  | commit b n hb hguard ih =>
    simpa [Buffer.commit] using hguard

/-- C4 witness: a freshly constructed 3-byte buffer is safely reachable and
satisfies the containment invariant. -/
theorem containment_invariant_witness :
    Buffer.ReachableSafe (Buffer.ofSize 3) ∧
    (Buffer.ofSize 3).m_offset + (Buffer.ofSize 3).m_size
      ≤ (Buffer.ofSize 3).m_buffer.length :=
  ⟨Buffer.ReachableSafe.ofSize 3,
   containment_invariant (Buffer.ofSize 3) (Buffer.ReachableSafe.ofSize 3)⟩

/-- C5: canIntersect is symmetric. For every pairwise validity test that is
symmetric (the claim assumes intersect(a, b) == intersect(b, a)), swapping
the two capability sets does not change the result of canIntersect. -/
theorem canIntersect_symm (valid : α → α → Bool)
    (hsymm : ∀ a b, valid a b = valid b a) (A B : List α) :
    canIntersect valid A B = canIntersect valid B A := by
  rw [Bool.eq_iff_iff, canIntersect_iff, canIntersect_iff]
  constructor
  · rintro ⟨a, ha, b, hb, hv⟩
    exact ⟨b, hb, a, ha, by rw [hsymm]; exact hv⟩
  · rintro ⟨b, hb, a, ha, hv⟩
    exact ⟨a, ha, b, hb, by rw [hsymm]; exact hv⟩

/-- C5 witness: symmetry evaluated for a concrete symmetric validity test
and concrete capability sets. -/
theorem canIntersect_symm_witness :
    (∀ a b : Nat, (fun _ _ : Nat => true) a b = (fun _ _ : Nat => true) b a) ∧
    canIntersect (fun _ _ : Nat => true) [1] [2, 3]
      = canIntersect (fun _ _ : Nat => true) [2, 3] [1] :=
  ⟨fun _ _ => rfl,
   canIntersect_symm (fun _ _ : Nat => true) (fun _ _ => rfl) [1] [2, 3]⟩

/-- C6: existence semantics of canIntersect. The result is true exactly when
some pair across the two sets is valid, and it equals the success of the
search for the first valid pair in the declaration order the nested loops
examine pairs in (outer set first, inner set second), so the first
intersecting pair is the one that decides. -/
theorem canIntersect_exists_first (valid : α → α → Bool) (A B : List α) :
    (canIntersect valid A B = true ↔ ∃ a ∈ A, ∃ b ∈ B, valid a b = true) ∧
    canIntersect valid A B = (firstIntersect valid A B).isSome := by
  refine ⟨canIntersect_iff valid A B, ?_⟩
  rw [Bool.eq_iff_iff, canIntersect_iff, firstIntersect, List.find?_isSome]
  constructor
  · rintro ⟨a, ha, b, hb, hv⟩
    refine ⟨(a, b), ?_, hv⟩
    simp only [capPairs, List.mem_flatMap, List.mem_map]
    exact ⟨a, ha, b, hb, rfl⟩
  · rintro ⟨p, hp, hv⟩
    simp only [capPairs, List.mem_flatMap, List.mem_map] at hp
    rcases hp with ⟨a, ha, b, hb, rfl⟩
    exact ⟨a, ha, b, hb, hv⟩

/-- C7: linking gate and effect. link(prev, next) is possible exactly when
canIntersect(prev.outCaps, next.inCaps) holds: when the gate rejects, no
link is formed; when it holds, the sole effect is to record next as the
single successor of prev — the successor pointer is set and every other
field of prev is unchanged. -/
theorem link_gate_and_effect (valid : α → α → Bool) (prev next : Node α)
    (nextId : Nat) :
    (canIntersect valid prev.outCaps next.inCaps = false →
      Node.link valid prev nextId next = none) ∧
    (canIntersect valid prev.outCaps next.inCaps = true →
      Node.link valid prev nextId next
        = some { prev with m_next := some nextId }) := by
  unfold Node.link
  constructor
  · intro h
    rw [if_neg (by simp [h])]
  · intro h
    rw [if_pos (by simp [h])]

/-- C7 witness: a compatible producer/consumer pair links successfully and
the result records the successor. -/
theorem link_gate_and_effect_witness :
    canIntersect (fun a b : Nat => a == b) (Node.mk [1] ([] : List Nat) none).outCaps
      (Node.mk ([] : List Nat) [1] none).inCaps = true ∧
    Node.link (fun a b : Nat => a == b) (Node.mk [1] ([] : List Nat) none) 7
        (Node.mk ([] : List Nat) [1] none)
      = some { Node.mk [1] ([] : List Nat) none with m_next := some 7 } :=
  ⟨by decide,
   (link_gate_and_effect (fun a b : Nat => a == b) (Node.mk [1] ([] : List Nat) none)
     (Node.mk ([] : List Nat) [1] none) 7).2 (by decide)⟩

/-- C8 counterexample: a buffer committed to [1, 2, 3] (capacity 4) split
with chunk size 2 yields chunks [1, 2] and [3, 0]; their concatenation
[1, 2, 3, 0] is not the committed byte sequence [1, 2, 3]. -/
theorem split_concat_counterexample :
    ((Buffer.ofData [1, 2, 3] 4).split 2).flatten ≠ (Buffer.ofData [1, 2, 3] 4).data := by
  have h := Buffer.splitGo_flatten (Buffer.ofData [1, 2, 3] 4).m_buffer
    (Buffer.ofData [1, 2, 3] 4).m_offset 2 (by decide)
    (Buffer.ofData [1, 2, 3] 4).m_size (Buffer.ofData [1, 2, 3] 4).m_size 0
    (by omega)
  unfold Buffer.split
  rw [h]
  decide

/-- C8 (amended): split reproduces the committed bytes as an initial
segment. For every chunkSize c > 0, the first S bytes of the concatenation
of all chunks are exactly the committed byte sequence (with equality of the
whole concatenation exactly when c divides S), and the chunk count follows
the ceiling policy: ceil(S / c) chunks. -/
theorem split_concat (b : Buffer) (c : Nat) (hc : 0 < c) :
    ((b.split c).flatten.take b.m_size = b.data) ∧
    ((b.split c).length = (b.m_size + c - 1) / c) ∧
    (c ∣ b.m_size → (b.split c).flatten = b.data) := by
  have hfl := Buffer.splitGo_flatten b.m_buffer b.m_offset c hc
    b.m_size b.m_size 0 (by omega)
  have hlen := Buffer.splitGo_length b.m_buffer b.m_offset c hc
    b.m_size b.m_size 0 (by omega)
  simp only [Nat.sub_zero, Nat.add_zero] at hfl hlen
  unfold Buffer.split
  refine ⟨?_, hlen, fun hdvd => ?_⟩
  · rw [hfl, Buffer.data, List.take_take,
      inf_eq_left.mpr (ceil_mul_ge c b.m_size hc)]
  · rcases hdvd with ⟨k, hk⟩
    have hq : (b.m_size + c - 1) / c = k := by
      have h1 : b.m_size + c - 1 = c * k + (c - 1) := by omega
      rw [h1, Nat.mul_add_div hc, Nat.div_eq_of_lt (by omega), Nat.add_zero]
    rw [hfl, hq, Buffer.data, hk, Nat.mul_comm]

/-- C8 witness: the amended statement evaluated for a buffer committed to
[1, 2] and chunk size 2. -/
theorem split_concat_witness :
    0 < 2 ∧
    ((((Buffer.ofData [1, 2] 0).split 2).flatten.take (Buffer.ofData [1, 2] 0).m_size
        = (Buffer.ofData [1, 2] 0).data) ∧
     (((Buffer.ofData [1, 2] 0).split 2).length
        = ((Buffer.ofData [1, 2] 0).m_size + 2 - 1) / 2) ∧
     (2 ∣ (Buffer.ofData [1, 2] 0).m_size →
        ((Buffer.ofData [1, 2] 0).split 2).flatten = (Buffer.ofData [1, 2] 0).data)) :=
  ⟨by decide, split_concat (Buffer.ofData [1, 2] 0) 2 (by decide)⟩

/-- C10: implicit trailing-chunk policy of split. For chunk size c > 0 on
committed size S, and a backing store large enough for every chunk read
(the C++ reads each chunk at full width from the store), split produces
exactly ceil(S / c) chunks, each of length exactly c, and when c does not
divide S the chunks cover bytes past the end of the committed region
(S < ceil(S / c) * c): the trailing chunk is included at full size, never
truncated or dropped. -/
theorem split_chunk_policy (b : Buffer) (c : Nat) (hc : 0 < c)
    (hcap : b.m_offset + ((b.m_size + c - 1) / c) * c ≤ b.m_buffer.length) :
    ((b.split c).length = (b.m_size + c - 1) / c) ∧
    (∀ ch ∈ b.split c, ch.length = c) ∧
    (¬ c ∣ b.m_size → b.m_size < ((b.m_size + c - 1) / c) * c) := by
  have hlen := Buffer.splitGo_length b.m_buffer b.m_offset c hc
    b.m_size b.m_size 0 (by omega)
  simp only [Nat.sub_zero] at hlen
  refine ⟨by rw [Buffer.split, hlen], ?_,
    fun h => ceil_mul_gt_of_not_dvd c b.m_size hc h⟩
  intro ch hch
  rw [Buffer.split] at hch
  rcases Buffer.splitGo_mem b.m_buffer b.m_offset c hc b.m_size b.m_size 0 ch
    (by omega) hch with ⟨k, hk1, hk2⟩
  rw [hk2, List.length_take, List.length_drop]
  have ha := ceil_mul_ge c b.m_size hc
  have hkN : k < (b.m_size + c - 1) / c :=
    Nat.lt_of_mul_lt_mul_right (by omega : k * c < ((b.m_size + c - 1) / c) * c)
  have hmul : (k + 1) * c ≤ ((b.m_size + c - 1) / c) * c :=
    Nat.mul_le_mul_right c hkN
  have hexp : (k + 1) * c = k * c + c := by ring
  rw [inf_eq_left]
  omega

/-- C10 witness: the policy evaluated for a buffer committed to [1, 2, 3]
with capacity 4 and chunk size 2. -/
theorem split_chunk_policy_witness :
    0 < 2 ∧
    ((Buffer.ofData [1, 2, 3] 4).m_offset
      + (((Buffer.ofData [1, 2, 3] 4).m_size + 2 - 1) / 2) * 2
      ≤ (Buffer.ofData [1, 2, 3] 4).m_buffer.length) ∧
    ((((Buffer.ofData [1, 2, 3] 4).split 2).length
        = ((Buffer.ofData [1, 2, 3] 4).m_size + 2 - 1) / 2) ∧
     (∀ ch ∈ (Buffer.ofData [1, 2, 3] 4).split 2, ch.length = 2) ∧
     (¬ 2 ∣ (Buffer.ofData [1, 2, 3] 4).m_size →
        (Buffer.ofData [1, 2, 3] 4).m_size
          < (((Buffer.ofData [1, 2, 3] 4).m_size + 2 - 1) / 2) * 2)) :=
  ⟨by decide, by decide, split_chunk_policy (Buffer.ofData [1, 2, 3] 4) 2 (by decide) (by decide)⟩

end Coro
